import Mathlib

/- Verification development for scripts/obsfile_params_check.py.

   Python strings are modelled as Lean `String` / `List Char`; Python list
   membership, `str.split`, `str.splitlines`, and the regular-expression
   search used by the reference extractor are embedded explicitly below.
   Remote content access (GitHub API, base64 transport decoding) is an
   external collaborator: functions that consume fetched content take the
   decoded text (or, for the launch resolver, a fetch environment) as an
   argument. -/

/-- Result dictionary of `obsfile_params_check.diff`; the returned dict has
    exactly the keys `used`, `not_used` and `not_declared`. -/
structure DiffResult where
  used : List String
  not_used : List String
  not_declared : List String
deriving DecidableEq

/-- `obsfile_params_check.diff` (source lines 407-445): one pass over
    `params_declared` appending to `used` or `not_used` according to
    membership in `params_used`, one pass over `params_used` appending to
    `not_declared` when absent from `params_declared`; the append-in-order
    loops are exactly order-preserving filters. -/
def diff (params_declared params_used : List String) : DiffResult :=
  { used := params_declared.filter (fun p => decide (p ∈ params_used)),
    not_used := params_declared.filter (fun p => decide (p ∉ params_used)),
    not_declared := params_used.filter (fun p => decide (p ∉ params_declared)) }

/-- Errors raised by `obsfile_params_check.read_file`: `notUnique` is the
    `ValueError("File is not uniquely specified.")` raised when more than one
    file matches, `noMatch` is the `IndexError` raised by `file_content[0]`
    when the matched list is empty. -/
inductive FetchError where
  | notUnique
  | noMatch
deriving DecidableEq

/-- `obsfile_params_check.read_file` (lines 94-122), parameterised by the
    list of decoded contents of the files the path resolved to (the listing
    and base64 transport decoding belong to the external Accessor): raise
    when more than one file matched, index the single element otherwise
    (raising IndexError when none matched). -/
def read_file (matched : List String) : Except FetchError String :=
  if matched.length > 1 then .error .notUnique
  else
    match matched with
    | [] => .error .noMatch
    | c :: _ => .ok c

/-- Python `str.splitlines` restricted to the line terminators `\r\n`, `\n`
    and `\r` (the ones relevant to the config format): accumulate the current
    line (reversed) and cut at each terminator; no trailing empty line. -/
def pySplitlinesAux : List Char → List Char → List (List Char)
  | [], [] => []
  | [], acc => [acc.reverse]
  | '\r' :: '\n' :: cs, acc => acc.reverse :: pySplitlinesAux cs []
  | '\n' :: cs, acc => acc.reverse :: pySplitlinesAux cs []
  | '\r' :: cs, acc => acc.reverse :: pySplitlinesAux cs []
  | c :: cs, acc => pySplitlinesAux cs (c :: acc)

/-- Python `line.split("=")`: split at every occurrence of `=`. -/
def pySplitEq : List Char → List (List Char)
  | [] => [[]]
  | c :: cs =>
    if c = '=' then [] :: pySplitEq cs
    else
      match pySplitEq cs with
      | [] => [[c]]
      | f :: fs => (c :: f) :: fs

/-- Parsing core of `obsfile_params_check.get_obsparams` (lines 144-154),
    applied to the decoded file content: split into lines, split each line on
    `=`, and append the field before the first `=` whenever field index 1
    exists and is non-empty (the `try ... except IndexError: pass` skips
    lines without any `=`). -/
def get_obsparamsCore (content : List Char) : List (List Char) :=
  (pySplitlinesAux content []).foldl
    (fun params line =>
      match (pySplitEq line).get? 1 with
      | some v => if v = [] then params else params ++ [(pySplitEq line).headD []]
      | none => params)
    []

/-- String-level wrapper of `get_obsparamsCore`. -/
def get_obsparams (content : String) : List String :=
  (get_obsparamsCore content.toList).map (fun l => String.mk l)

/-- Split a character list at the first occurrence of `sep` (Python
    `s.split(sep, 1)`; `none` when `sep` does not occur). -/
def splitFirstChar (sep : Char) : List Char → Option (List Char × List Char)
  | [] => none
  | c :: cs =>
    if c = sep then some ([], cs)
    else
      match splitFirstChar sep cs with
      | none => none
      | some (a, b) => some (c :: a, b)

/-- Reading of claim C2 ("split at the first `=`; a key is kept iff the value
    side after that first `=` is non-empty"), for comparison with the code. -/
def claimKey (line : List Char) : Option (List Char) :=
  match splitFirstChar '=' line with
  | none => none
  | some (k, v) => if v = [] then none else some k

/-- Corrected per-line rule actually implemented: the key (part before the
    first `=`) is kept iff the segment strictly between the first and the
    second `=` (the whole remainder when only one `=` occurs) is non-empty. -/
def amendedKey (line : List Char) : Option (List Char) :=
  match splitFirstChar '=' line with
  | none => none
  | some (k, v) => if v.takeWhile (fun c => !(c == '=')) = [] then none else some k

/-- Quote character class `[...]` of the extraction pattern: a single quote
    (code 39) or a double quote (code 34). -/
def isQuote (c : Char) : Bool := c == Char.ofNat 39 || c == Char.ofNat 34

/-- Literal-list match: does `p` occur as a prefix of `l`? -/
def startsWithL : List Char → List Char → Bool
  | [], _ => true
  | _ :: _, [] => false
  | p :: ps, c :: cs => p == c && startsWithL ps cs

/-- Tail of the extraction pattern after the closing quote: lazy `.*?`
    followed by the literal suffix `s`, with `.` matching any character
    except a newline (no DOTALL flag in the source). Returns the input
    remainder after the suffix on success; tries the shortest gap first. -/
def matchTailS (s : List Char) : List Char → Option (List Char)
  | [] => if s = [] then some [] else none
  | c :: cs =>
    if startsWithL s (c :: cs) then some (List.drop s.length (c :: cs))
    else if c = '\n' then none
    else matchTailS s cs

/-- Capture part `(.*?)['\x22]` of the extraction pattern followed by
    `matchTailS`: extend the (lazy, newline-free) capture one character at a
    time; whenever the next character is a quote, first try to finish the
    match there, falling back to swallowing the quote into the capture
    (regex backtracking order). Returns (captured group, remainder). -/
def matchCapture (s : List Char) : List Char → List Char → Option (List Char × List Char)
  | [], _ => none
  | c :: cs, acc =>
    if isQuote c then
      match matchTailS s cs with
      | some rem => some (acc.reverse, rem)
      | none => matchCapture s cs (c :: acc)
    else if c = '\n' then none
    else matchCapture s cs (c :: acc)

/-- Attempt the whole pattern `pre ['\x22] (.*?) ['\x22] .*? suf` at the head
    of `cs` (`pre`/`suf` are the regex-escaped trigger pair, hence literal). -/
def tryMatchAt (pre suf : List Char) (cs : List Char) : Option (List Char × List Char) :=
  if startsWithL pre cs then
    match List.drop pre.length cs with
    | [] => none
    | c :: rest => if isQuote c then matchCapture suf rest [] else none
  else none

/-- `re.findall` scan for the extraction pattern: try the pattern at each
    position left to right, continue after the end of each (non-empty) match;
    `fuel` bounds the iteration count (every step consumes input, so
    `length + 1` suffices). -/
def findallAux (pre suf : List Char) : Nat → List Char → List (List Char)
  | 0, _ => []
  | _, [] => []
  | fuel + 1, c :: cs =>
    match tryMatchAt pre suf (c :: cs) with
    | some (cap, rem) => cap :: findallAux pre suf fuel rem
    | none => findallAux pre suf fuel cs

/-- All captures of the extraction pattern in `content`, in scan order. -/
def pyFindall (pre suf content : List Char) : List (List Char) :=
  findallAux pre suf (content.length + 1) content

/-- All positions (suffixes of the input) at which `re.findall` may try the
    pattern. -/
def suffixesL : List Char → List (List Char)
  | [] => [[]]
  | c :: cs => (c :: cs) :: suffixesL cs

/-- Kernel-evaluable decidability of `≤` on `String` (through the
    character-list order), used so that concrete runs reduce. -/
def strLeDec : DecidableRel (fun a b : String => a ≤ b) :=
  fun a b => decidable_of_iff (a.toList ≤ b.toList) String.le_iff_toList_le.symm

/-- `obsfile_params_check.params_extract` (lines 156-194) applied to the
    decoded content, with `already_escaped=False` so the trigger pair is
    regex-escaped and hence matched literally: `re.findall` of
    `trigger[0] ['\x22](.*?)['\x22].*? trigger[1]`, then `list(set(...))`
    then `sorted` (= the ascending sort of the distinct captures, Python
    string order being the lexicographic order on code points). -/
def params_extract (pre suf content : String) : List String :=
  @List.insertionSort String (fun a b => a ≤ b) strLeDec
    (((pyFindall pre.toList suf.toList content.toList).map (fun l => String.mk l)).dedup)

/-- Outcome of `exec(content, pymodule.__dict__)` in
    `obsfile_params_check.eval_param`: the three exception classes named in
    its `except` clauses, any other raised exception, or normal completion. -/
inductive ExecOutcome where
  | ok
  | moduleNotFound
  | nameError
  | indentationError
  | otherError
deriving DecidableEq

/-- Behaviour of the dynamic execution of fetched content (external to this
    core, §5 of the spec): how `exec` terminates and which variables the
    (possibly partially executed) module namespace then holds, each mapped to
    the `str` of its value. -/
structure ExecBehavior where
  outcome : ExecOutcome
  names : List (String × String)

/-- Post-execution lookup `eval(f"pymodule.{param}")`: the variable's string
    value in the namespace, `none` when the lookup raises. -/
def lookupNs (ns : List (String × String)) (p : String) : Option String :=
  (ns.find? (fun q => q.1 == p)).map (fun q => q.2)

/-- Characters after the last `/` (accumulator is the current component,
    reversed). -/
def lastComponentL : List Char → List Char → List Char
  | [], acc => acc.reverse
  | c :: cs, acc => if c = '/' then lastComponentL cs [] else lastComponentL cs (c :: acc)

/-- Last path component, `re.split("/", path)[-1]`. -/
def filenameOf (path : String) : String := String.mk (lastComponentL path.toList [])

/-- `obsfile_params_check.eval_param` (lines 280-339): locate the dot that
    starts the filename extension (`re.search` returning no match makes
    `m.start()` raise, aborting); `exec` the content, catching exactly
    ModuleNotFoundError, NameError and IndentationError (anything else
    propagates, modelled as `none`); then look the variable up in the module
    namespace, any lookup failure yielding the string `"???"`; return
    `param + " -> " + str(true_param)`. -/
def eval_param (ex : ExecBehavior) (path p : String) : Option String :=
  if (filenameOf path).toList.contains '.' then
    match ex.outcome with
    | .otherError => none
    | _ => some (p ++ " -> " ++ (lookupNs ex.names p).getD "???")
  else none

/-- Parsed XML element (`xml.etree.ElementTree`): tag, attribute list,
    child elements in document order. -/
inductive XElem where
  | mk (tag : String) (attrs : List (String × String)) (children : List XElem)

/-- Tag of an element. -/
def XElem.tag : XElem → String
  | .mk t _ _ => t

/-- Attribute list of an element. -/
def XElem.attrs : XElem → List (String × String)
  | .mk _ a _ => a

/-- Direct children of an element. -/
def XElem.children : XElem → List XElem
  | .mk _ _ cs => cs

/-- `element.get(name)`: the attribute's value, `None` when absent. -/
def XElem.getAttr : XElem → String → Option String
  | .mk _ attrs _, a => (attrs.find? (fun p => p.1 == a)).map (fun p => p.2)

mutual

/-- `node.iter("remap")`: the self-or-descendant elements with tag `remap`,
    in document (preorder) order. -/
def collectRemaps : XElem → List XElem
  | .mk t a cs => (if t = "remap" then [XElem.mk t a cs] else []) ++ collectRemapsL cs

/-- `collectRemaps` over a list of sibling elements. -/
def collectRemapsL : List XElem → List XElem
  | [] => []
  | c :: cs => collectRemaps c ++ collectRemapsL cs

end

/-- One entry of the list returned by `list_from_launch`: the node's `type`
    attribute and the `{from: to}` singleton dicts of its `remap` elements. -/
structure LaunchNode where
  type : Option String
  remap : List (Option String × Option String)
deriving DecidableEq

/-- Descriptor built for each terminal node (source lines 379-388). -/
def nodeDesc (e : XElem) : LaunchNode :=
  { type := e.getAttr "type",
    remap := (collectRemaps e).map (fun r => (r.getAttr "from", r.getAttr "to")) }

/-- Python `path.split("/", 2)`: at most two splits, so one to three parts. -/
def pySplit2 (sep : Char) (l : List Char) : List (List Char) :=
  match splitFirstChar sep l with
  | none => [l]
  | some (a, r) =>
    match splitFirstChar sep r with
    | none => [a, r]
    | some (b, r2) => [a, b, r2]

/-- Python `path[-7:]`, the last seven characters. -/
def strTakeRight (s : String) (n : Nat) : String :=
  String.mk (s.toList.reverse.take n).reverse

/-- Worklist loop of `list_from_launch` (lines 369-377): pop the front
    element; an `include` element has the segment before the first `/` of its
    `file` attribute stripped (IndexError, hence failure, when there is no
    `/`; AttributeError when the attribute is absent), the included file is
    fetched at `user/repository/<stripped path>` through the environment
    (fetch or XML-parse failure is `none`) and its top-level children are
    appended to the back of the worklist; any other element is recorded as a
    node. `fuel` bounds the number of iterations (include cycles make the
    source loop unbounded). -/
def runLaunch (env : String → Option XElem) (user repo : String) :
    Nat → List XElem → List XElem → Option (List XElem)
  | _, [], nodes => some nodes
  | 0, _ :: _, _ => none
  | fuel + 1, child :: rest, nodes =>
    if child.tag = "include" then
      match child.getAttr "file" with
      | none => none
      | some f =>
        match splitFirstChar '/' f.toList with
        | none => none
        | some (_, lp) =>
          match env (user ++ "/" ++ repo ++ "/" ++ String.mk lp) with
          | none => none
          | some inc => runLaunch env user repo fuel (rest ++ inc.children) nodes
    else
      runLaunch env user repo fuel rest (nodes ++ [child])

/-- `obsfile_params_check.list_from_launch` (lines 341-389). `env` is the
    composition of `read_file` with `ET.fromstring` (`none` models a raised
    exception: ambiguous or missing file, or malformed XML). A path whose
    last seven characters are not `.launch` returns `[]` before any fetch;
    otherwise the file is fetched, the path is split into
    user/repository/file_path (fewer than three parts raises), the worklist
    is seeded with the root's children and drained, and each collected node
    is turned into its descriptor. -/
def list_from_launch (env : String → Option XElem) (fuel : Nat) (path : String) :
    Option (List LaunchNode) :=
  if strTakeRight path 7 ≠ ".launch" then some []
  else
    match env path with
    | none => none
    | some root =>
      match pySplit2 '/' path.toList with
      | [u, r, _] =>
        (runLaunch env (String.mk u) (String.mk r) fuel root.children []).map
          (fun ns => ns.map nodeDesc)
      | _ => none

/-- Single-quote character as a one-character string, for building test
    contents. -/
def sglq : String := (Char.ofNat 39).toString

/-- Scenario-2 source text: two single-quoted references on two lines. -/
def exLiteral : String :=
  "x = obs[" ++ sglq ++ "foo" ++ sglq ++ "]\ny = obs[" ++ sglq ++ "bar" ++ sglq ++ "]"

/-- Content whose quoted name and suffix are separated by a newline. -/
def exNewline : String := "obs[" ++ sglq ++ "foo" ++ sglq ++ "\n]"

/-- Content whose quoted name and suffix are separated within one line. -/
def exSameLine : String := "obs[" ++ sglq ++ "foo" ++ sglq ++ " , 1]"

/-- Mismatched-quote content `obs["foo']`. -/
def exMismatch : String := "obs[\"foo" ++ sglq ++ "]"

/-- Matched-quote content `obs["foo"]`. -/
def exMatched : String := "obs[\"foo\"]"

/-- Fixture: a node element with one remap child. -/
def wNode : XElem :=
  .mk "node" [("type", "talker"), ("name", "t1")] [XElem.mk "remap" [("from", "a"), ("to", "b")] []]

/-- Fixture: a launch document holding only `wNode`. -/
def wRootB : XElem := .mk "launch" [] [wNode]

/-- Fixture: an include element pointing (through a substitution segment) at
    `b.launch`. -/
def wInc : XElem := .mk "include" [("file", "$(find pkg)/b.launch")] []

/-- Fixture: a launch document whose only child is the include `wInc`. -/
def wRootA : XElem := .mk "launch" [] [wInc]

/-- Fixture environment: two fetchable launch files under `u/r`. -/
def wEnv : String → Option XElem := fun p =>
  if p = "u/r/a.launch" then some wRootA
  else if p = "u/r/b.launch" then some wRootB
  else none

/-- C1 counterexample: on the concrete input `declared = ["a","a"]`,
    `used = ["a"]`, the `used` bucket of `diff` is `["a","a"]`, which
    contains a duplicate entry — refuting "no bucket contains duplicate
    entries" for arbitrary string lists. -/
theorem C1_counterexample :
    (diff ["a", "a"] ["a"]).used = ["a", "a"] ∧ ¬ (diff ["a", "a"] ["a"]).used.Nodup := by
  decide

/-- C1 (amended: the no-duplicates-within-a-bucket part holds when the input
    lists are themselves duplicate-free; duplicated input entries are echoed
    into the buckets): `diff` returns the record with exactly the fields
    `used`, `not_used`, `not_declared`; membership-wise `used` is
    declared ∩ used, `not_used` is declared − used, `not_declared` is
    used − declared; the buckets cover declared ∪ used and are pairwise
    disjoint; for duplicate-free inputs each bucket is duplicate-free; and
    `diff(["a","b","c"], ["b","c","d"])` is
    `{used := ["b","c"], not_used := ["a"], not_declared := ["d"]}`. -/
theorem C1_diff_partition :
    (∀ d u : List String, ∀ x : String,
      (x ∈ (diff d u).used ↔ x ∈ d ∧ x ∈ u) ∧
      (x ∈ (diff d u).not_used ↔ x ∈ d ∧ x ∉ u) ∧
      (x ∈ (diff d u).not_declared ↔ x ∈ u ∧ x ∉ d) ∧
      ((x ∈ d ∨ x ∈ u) ↔
        (x ∈ (diff d u).used ∨ x ∈ (diff d u).not_used ∨ x ∈ (diff d u).not_declared)) ∧
      ¬(x ∈ (diff d u).used ∧ x ∈ (diff d u).not_used) ∧
      ¬(x ∈ (diff d u).used ∧ x ∈ (diff d u).not_declared) ∧
      ¬(x ∈ (diff d u).not_used ∧ x ∈ (diff d u).not_declared)) ∧
    (∀ d u : List String,
      (d.Nodup → (diff d u).used.Nodup ∧ (diff d u).not_used.Nodup) ∧
      (u.Nodup → (diff d u).not_declared.Nodup)) ∧
    diff ["a", "b", "c"] ["b", "c", "d"] =
      { used := ["b", "c"], not_used := ["a"], not_declared := ["d"] } := by
  refine ⟨?_, ?_, by decide⟩
  · intro d u x
    simp only [diff, List.mem_filter, decide_eq_true_eq]
    tauto
  · intro d u
    exact ⟨fun hd => ⟨hd.filter _, hd.filter _⟩, fun hu => hu.filter _⟩

/-- C1 witness: the partition properties and the duplicate-freeness
    consequences evaluated at `declared = ["a","b","c"]`,
    `used = ["b","c","d"]`. -/
theorem C1_diff_partition_witness :
    ("b" ∈ (diff ["a", "b", "c"] ["b", "c", "d"]).used ↔
      "b" ∈ (["a", "b", "c"] : List String) ∧ "b" ∈ (["b", "c", "d"] : List String)) ∧
    ((diff ["a", "b", "c"] ["b", "c", "d"]).used.Nodup ∧
      (diff ["a", "b", "c"] ["b", "c", "d"]).not_used.Nodup) ∧
    (diff ["a", "b", "c"] ["b", "c", "d"]).not_declared.Nodup :=
  ⟨(C1_diff_partition.1 ["a", "b", "c"] ["b", "c", "d"] "b").1,
   (C1_diff_partition.2.1 ["a", "b", "c"] ["b", "c", "d"]).1 (by decide),
   (C1_diff_partition.2.1 ["a", "b", "c"] ["b", "c", "d"]).2 (by decide)⟩

/-- C5 counterexample: on the concrete input `declared = ["b","a"]`,
    `used = []`, the `not_used` list of `diff` is `["b","a"]`, which is not
    sorted ascending — the buckets keep the input lists' order, they are not
    re-sorted. -/
theorem C5_counterexample :
    (diff ["b", "a"] []).not_used = ["b", "a"] ∧
    ¬ ((diff ["b", "a"] []).not_used.Sorted (fun a b : String => a ≤ b)) := by
  refine ⟨by decide, fun h => ?_⟩
  have he : (diff ["b", "a"] []).not_used = ["b", "a"] := by decide
  rw [he] at h
  have hba : ("b" : String) ≤ "a" := List.rel_of_sorted_cons h "a" (by simp)
  rw [String.le_iff_toList_le] at hba
  exact absurd hba (by decide)

/-- C5 (amended: each bucket preserves the relative order of its source
    list — the first input for `used`/`not_used`, the second for
    `not_declared` — hence is sorted ascending lexicographically whenever the
    corresponding input list is; the buckets are not re-sorted by `diff`). -/
theorem C5_diff_sorted :
    ∀ d u : List String,
      (d.Sorted (fun a b : String => a ≤ b) →
        (diff d u).used.Sorted (fun a b : String => a ≤ b) ∧
        (diff d u).not_used.Sorted (fun a b : String => a ≤ b)) ∧
      (u.Sorted (fun a b : String => a ≤ b) →
        (diff d u).not_declared.Sorted (fun a b : String => a ≤ b)) := by
  intro d u
  exact ⟨fun hd => ⟨hd.filter _, hd.filter _⟩, fun hu => hu.filter _⟩

/-- C5 witness: sorted inputs `["a","b"]` and `["b"]` give sorted buckets. -/
theorem C5_diff_sorted_witness :
    ((diff ["a", "b"] ["b"]).used.Sorted (fun a b : String => a ≤ b) ∧
      (diff ["a", "b"] ["b"]).not_used.Sorted (fun a b : String => a ≤ b)) ∧
    (diff ["a", "b"] ["b"]).not_declared.Sorted (fun a b : String => a ≤ b) := by
  have hd : (["a", "b"] : List String).Sorted (fun a b : String => a ≤ b) := by
    refine List.sorted_cons.mpr ⟨fun b hb => ?_, List.sorted_singleton _⟩
    simp only [List.mem_singleton] at hb
    subst hb
    rw [String.le_iff_toList_le]
    decide
  have hu : (["b"] : List String).Sorted (fun a b : String => a ≤ b) :=
    List.sorted_singleton _
  exact ⟨(C5_diff_sorted ["a", "b"] ["b"]).1 hd, (C5_diff_sorted ["a", "b"] ["b"]).2 hu⟩

/-- C8 (confirmed): `read_file` raises when its path resolved to more than
    one file, raises (never returns content) when it resolved to none, and
    returns the decoded text when it resolved to exactly one file — it never
    silently picks one of several matches. -/
theorem C8_read_file_unique :
    ∀ matched : List String,
      (matched.length > 1 → read_file matched = .error .notUnique) ∧
      (matched.length = 0 → read_file matched = .error .noMatch) ∧
      (∀ c, matched = [c] → read_file matched = .ok c) := by
  intro matched
  refine ⟨fun h1 => ?_, fun h0 => ?_, fun c hc => ?_⟩
  · simp only [read_file, if_pos h1]
  · rw [List.length_eq_zero] at h0
    subst h0
    rfl
  · subst hc
    rfl

/-- C8 witness: the three behaviours at the concrete matched lists
    `["x","y"]`, `[]` and `["hi"]`. -/
theorem C8_read_file_unique_witness :
    read_file ["x", "y"] = .error .notUnique ∧
    read_file [] = .error .noMatch ∧
    read_file ["hi"] = .ok "hi" :=
  ⟨(C8_read_file_unique ["x", "y"]).1 (by decide),
   (C8_read_file_unique []).2.1 rfl,
   (C8_read_file_unique ["hi"]).2.2 "hi" rfl⟩

/-- C7 counterexample: with a successful execution and an empty module
    namespace, looking up `x` fails and `eval_param` returns the token
    `"x -> ???"` — the sentinel substituted for an unresolvable reference is
    the literal string `"???"`, not `"<unresolved>"`. -/
theorem C7_counterexample :
    eval_param { outcome := .ok, names := [] } "dummy_node.py" "x" = some "x -> ???" ∧
    eval_param { outcome := .ok, names := [] } "dummy_node.py" "x" ≠
      some "x -> <unresolved>" := by
  refine ⟨by decide, fun h => ?_⟩
  have h1 : eval_param { outcome := .ok, names := [] } "dummy_node.py" "x" =
      some "x -> ???" := by decide
  rw [h1] at h
  exact absurd (Option.some.injEq _ _ ▸ h) (by decide)

/-- C7 (amended: the sentinel is the literal string `"???"`): a
    missing-module, undefined-name or indentation error raised while
    executing the content never aborts the call — the variable lookup is
    still attempted on whatever namespace the partial execution left — and
    every dynamically-resolved reference is returned arrow-formatted as
    `"<name> -> <resolved-value-or-sentinel>"`, the sentinel for a failed
    lookup being `"???"`. -/
theorem C7_eval_param_token :
    ∀ (ex : ExecBehavior) (path p : String),
      (filenameOf path).toList.contains '.' = true →
      ex.outcome ≠ .otherError →
      (eval_param ex path p = some (p ++ " -> " ++ (lookupNs ex.names p).getD "???")) ∧
      (lookupNs ex.names p = none → eval_param ex path p = some (p ++ " -> " ++ "???")) := by
  intro ex path p hdot hrec
  have hmain : eval_param ex path p =
      some (p ++ " -> " ++ (lookupNs ex.names p).getD "???") := by
    unfold eval_param
    rw [if_pos hdot]
    cases hout : ex.outcome with
    | otherError => exact absurd hout hrec
    | ok => rfl
    | moduleNotFound => rfl
    | nameError => rfl
    | indentationError => rfl
  refine ⟨hmain, fun hnone => ?_⟩
  rw [hmain, hnone]
  rfl

/-- C7 witness: a `NameError` during execution still yields an arrow token,
    and a failed lookup yields the `"???"` sentinel token. -/
theorem C7_eval_param_token_witness :
    eval_param { outcome := .nameError, names := [("y", "5")] } "dummy_node.py" "x" =
      some ("x" ++ " -> " ++ "???") :=
  (C7_eval_param_token { outcome := .nameError, names := [("y", "5")] }
    "dummy_node.py" "x" (by decide) (by decide)).2 (by decide)

/-- C10 (confirmed): only `ModuleNotFoundError`, `NameError` and
    `IndentationError` raised by the executed content are caught; any other
    exception propagates out of `eval_param` (aborting the batch, modelled as
    `none`), while the three caught outcomes — and normal completion — always
    produce a result token. -/
theorem C10_eval_param_catches :
    ∀ (ns : List (String × String)) (path p : String),
      (filenameOf path).toList.contains '.' = true →
      (eval_param { outcome := .otherError, names := ns } path p = none) ∧
      (∀ o : ExecOutcome, o ≠ .otherError →
        ∃ v, eval_param { outcome := o, names := ns } path p = some v) := by
  intro ns path p hdot
  constructor
  · unfold eval_param
    rw [if_pos hdot]
  · intro o ho
    refine ⟨p ++ " -> " ++ (lookupNs ns p).getD "???", ?_⟩
    unfold eval_param
    rw [if_pos hdot]
    cases o with
    | otherError => exact absurd rfl ho
    | ok => rfl
    | moduleNotFound => rfl
    | nameError => rfl
    | indentationError => rfl

/-- C10 witness: at a concrete path and namespace, an uncaught exception
    propagates while a caught `IndentationError` still yields a token. -/
theorem C10_eval_param_catches_witness :
    eval_param { outcome := .otherError, names := [] } "otf.py" "x" = none ∧
    ∃ v, eval_param { outcome := .indentationError, names := [] } "otf.py" "x" = some v :=
  ⟨(C10_eval_param_catches [] "otf.py" "x" (by decide)).1,
   (C10_eval_param_catches [] "otf.py" "x" (by decide)).2 .indentationError (by decide)⟩

/-- Unfolding equation: a leading `=` opens an empty field. -/
theorem pySplitEq_cons_eq (cs : List Char) : pySplitEq ('=' :: cs) = [] :: pySplitEq cs := by
  simp [pySplitEq]

/-- `line.split("=")` always has at least one field. -/
theorem pySplitEq_ne_nil (l : List Char) : pySplitEq l ≠ [] := by
  cases l with
  | nil => simp [pySplitEq]
  | cons c cs =>
    unfold pySplitEq
    by_cases hc : c = '='
    · simp [hc]
    · simp only [if_neg hc]
      cases h : pySplitEq cs <;> simp

/-- Unfolding equation: a non-`=` character is prepended to the first field. -/
theorem pySplitEq_cons_ne (c : Char) (cs : List Char) (hc : ¬ c = '=') :
    pySplitEq (c :: cs) = (c :: (pySplitEq cs).headD []) :: (pySplitEq cs).tail := by
  cases h : pySplitEq cs with
  | nil => exact absurd h (pySplitEq_ne_nil cs)
  | cons f fs =>
    conv_lhs => unfold pySplitEq
    rw [if_neg hc, h]
    rfl

/-- The first field of `line.split("=")` is the run of characters before the
    first `=`. -/
theorem pySplitEq_headD (l : List Char) :
    (pySplitEq l).headD [] = l.takeWhile (fun c => !(c == '=')) := by
  induction l with
  | nil => rfl
  | cons c cs ih =>
    by_cases hc : c = '='
    · subst hc
      rw [pySplitEq_cons_eq]
      simp [List.takeWhile_cons]
    · rw [pySplitEq_cons_ne c cs hc, List.headD_cons, List.takeWhile_cons]
      have hb : (!(c == '=')) = true := by simp [hc]
      rw [hb, if_pos rfl, ih]

/-- A line without `=` splits into the single field holding the whole line. -/
theorem splitFirstChar_none_pySplitEq (l : List Char)
    (h : splitFirstChar '=' l = none) : pySplitEq l = [l] := by
  induction l with
  | nil => rfl
  | cons c cs ih =>
    unfold splitFirstChar at h
    by_cases hc : c = '='
    · rw [if_pos hc] at h
      exact absurd h (by simp)
    · rw [if_neg hc] at h
      cases hs : splitFirstChar '=' cs with
      | some p =>
        rw [hs] at h
        simp at h
      | none =>
        rw [pySplitEq_cons_ne c cs hc, ih hs]
        rfl

/-- Splitting on every `=` refines splitting at the first `=`. -/
theorem splitFirstChar_some_pySplitEq (l : List Char) :
    ∀ k v, splitFirstChar '=' l = some (k, v) → pySplitEq l = k :: pySplitEq v := by
  induction l with
  | nil => intro k v h; simp [splitFirstChar] at h
  | cons c cs ih =>
    intro k v h
    unfold splitFirstChar at h
    by_cases hc : c = '='
    · rw [if_pos hc] at h
      simp only [Option.some.injEq, Prod.mk.injEq] at h
      obtain ⟨hk, rfl⟩ := h
      subst hc
      rw [← hk]
      exact pySplitEq_cons_eq cs
    · rw [if_neg hc] at h
      cases hs : splitFirstChar '=' cs with
      | none =>
        rw [hs] at h
        simp at h
      | some p =>
        obtain ⟨a, b⟩ := p
        rw [hs] at h
        simp only [Option.some.injEq, Prod.mk.injEq] at h
        obtain ⟨hk, rfl⟩ := h
        rw [← hk, pySplitEq_cons_ne c cs hc, ih a b hs]
        rfl

/-- Field index 1 of `line.split("=")`: absent when the line has no `=`,
    otherwise the segment between the first and the second `=`. -/
theorem pySplitEq_get1 (l : List Char) :
    (pySplitEq l).get? 1 =
      match splitFirstChar '=' l with
      | none => none
      | some (_, v) => some (v.takeWhile (fun c => !(c == '='))) := by
  cases hs : splitFirstChar '=' l with
  | none => rw [splitFirstChar_none_pySplitEq l hs]; rfl
  | some p =>
    obtain ⟨k, v⟩ := p
    rw [splitFirstChar_some_pySplitEq l k v hs]
    cases hv : pySplitEq v with
    | nil => exact absurd hv (pySplitEq_ne_nil v)
    | cons f fs =>
      have hh := pySplitEq_headD v
      rw [hv] at hh
      simp only [List.headD_cons] at hh
      simp [hh]

/-- One iteration of the `get_obsparams` loop appends exactly what
    `amendedKey` selects from the line. -/
theorem get_obsparamsCore_step (params : List (List Char)) (line : List Char) :
    (match (pySplitEq line).get? 1 with
      | some v => if v = [] then params else params ++ [(pySplitEq line).headD []]
      | none => params) = params ++ (amendedKey line).toList := by
  rw [pySplitEq_get1]
  unfold amendedKey
  cases hs : splitFirstChar '=' line with
  | none => simp
  | some p =>
    obtain ⟨k, v⟩ := p
    have hhead : (pySplitEq line).headD [] = k := by
      rw [splitFirstChar_some_pySplitEq line k v hs]
      rfl
    rw [hhead]
    by_cases ht : v.takeWhile (fun c => !(c == '=')) = []
    · simp [ht]
    · simp [ht]

/-- The `get_obsparams` loop is the order-preserving `filterMap` of
    `amendedKey` over the lines, whatever the accumulator. -/
theorem get_obsparamsCore_foldl (lines : List (List Char)) (acc : List (List Char)) :
    lines.foldl (fun params line =>
      match (pySplitEq line).get? 1 with
      | some v => if v = [] then params else params ++ [(pySplitEq line).headD []]
      | none => params) acc = acc ++ lines.filterMap amendedKey := by
  induction lines generalizing acc with
  | nil => simp
  | cons l ls ih =>
    rw [List.foldl_cons, get_obsparamsCore_step, ih, List.filterMap_cons]
    cases amendedKey l <;> simp

/-- C2 counterexample: on the concrete declaration text `"a==1"`, splitting
    at the first `=` leaves the non-empty value side `"=1"`, so the claim
    predicts the declared list `["a"]`; the code splits on every `=` and
    tests field index 1, which is empty, so it returns `[]`. -/
theorem C2_counterexample :
    get_obsparams "a==1" = [] ∧
    (pySplitlinesAux ("a==1".toList) []).filterMap claimKey = ["a".toList] := by
  decide

/-- C2 (amended: the line is split on every `=`, and the key — the part
    before the first `=` — is contributed exactly when the segment strictly
    between the first and the second `=` (the whole remainder when only one
    `=` occurs) is non-empty): the declared list is the order-preserving
    `filterMap` of that per-line rule over the file's lines, so a line `k=`
    never contributes, a line `k=v` whose value side holds no further `=`
    contributes exactly `k` when `v` is non-empty, and line order is
    preserved; in particular `"a=1\nb=\nc=3\n"` yields `["a","c"]`. -/
theorem C2_get_obsparams :
    (∀ content : List Char,
      get_obsparamsCore content = (pySplitlinesAux content []).filterMap amendedKey) ∧
    get_obsparams "a=1\nb=\nc=3\n" = ["a", "c"] := by
  constructor
  · intro content
    unfold get_obsparamsCore
    rw [get_obsparamsCore_foldl]
    simp
  · decide

/-- When every scan position fails to match, the findall scan is empty. -/
theorem findallAux_nil_of_no_match (pre suf : List Char) :
    ∀ (fuel : Nat) (cs : List Char),
      (∀ t ∈ suffixesL cs, tryMatchAt pre suf t = none) →
      findallAux pre suf fuel cs = [] := by
  intro fuel
  induction fuel with
  | zero => intro cs _; cases cs <;> rfl
  | succ n ih =>
    intro cs h
    cases cs with
    | nil => rfl
    | cons c rest =>
      have h0 : tryMatchAt pre suf (c :: rest) = none :=
        h _ (by rw [suffixesL]; exact List.mem_cons_self _ _)
      unfold findallAux
      rw [h0]
      exact ih rest (fun t ht => h t (by rw [suffixesL]; exact List.mem_cons_of_mem _ ht))

/-- C3 (confirmed): literal-mode extraction always returns a deduplicated
    list sorted ascending lexicographically; content at which the pattern
    matches at no scan position yields the empty list (never an error); and
    on the scenario-2 text with trigger `("obs[", "]")` the result is
    `["bar","foo"]`. -/
theorem C3_params_extract :
    (∀ pre suf content : String,
      (params_extract pre suf content).Sorted (fun a b : String => a ≤ b) ∧
      (params_extract pre suf content).Nodup ∧
      ((∀ t ∈ suffixesL content.toList, tryMatchAt pre.toList suf.toList t = none) →
        params_extract pre suf content = [])) ∧
    params_extract "obs[" "]" exLiteral = ["bar", "foo"] := by
  refine ⟨?_, by decide⟩
  intro pre suf content
  refine ⟨?_, ?_, ?_⟩
  · exact @List.sorted_insertionSort String (fun a b : String => a ≤ b) strLeDec
      inferInstance inferInstance _
  · exact (@List.perm_insertionSort String (fun a b : String => a ≤ b) strLeDec
      _).nodup_iff.mpr (List.nodup_dedup _)
  · intro h
    unfold params_extract pyFindall
    rw [findallAux_nil_of_no_match pre.toList suf.toList _ content.toList h]
    rfl

/-- C3 witness: on the matchless content `"hello"` the result is sorted,
    duplicate-free and empty. -/
theorem C3_params_extract_witness :
    (params_extract "obs[" "]" "hello").Sorted (fun a b : String => a ≤ b) ∧
    (params_extract "obs[" "]" "hello").Nodup ∧
    params_extract "obs[" "]" "hello" = [] :=
  ⟨(C3_params_extract.1 "obs[" "]" "hello").1,
   (C3_params_extract.1 "obs[" "]" "hello").2.1,
   (C3_params_extract.1 "obs[" "]" "hello").2.2 (by decide)⟩

/-- C4 counterexample: on the concrete content `obs['foo'` + newline + `]`
    with trigger `("obs[", "]")`, the name `foo` is not extracted — the
    pattern is compiled without DOTALL, so `.` does not match the newline
    between the quoted name and the suffix. -/
theorem C4_counterexample :
    params_extract "obs[" "]" exNewline = [] ∧
    "foo" ∉ params_extract "obs[" "]" exNewline := by
  decide

/-- A successful literal prefix test splits the input. -/
theorem startsWithL_eq_append (s : List Char) :
    ∀ l, startsWithL s l = true → l = s ++ l.drop s.length := by
  induction s with
  | nil => intro l _; simp
  | cons a as ih =>
    intro l h
    cases l with
    | nil => simp [startsWithL] at h
    | cons c cs =>
      unfold startsWithL at h
      rw [Bool.and_eq_true] at h
      obtain ⟨h1, h2⟩ := h
      have hac : a = c := beq_iff_eq.mp h1
      subst hac
      simp only [List.length_cons, List.drop_succ_cons, List.cons_append, List.cons.injEq,
        true_and]
      exact ih cs h2

/-- The span the lazy `.*?` consumes before the suffix never contains a
    newline. -/
theorem matchTailS_gap (s : List Char) :
    ∀ (cs rem : List Char), matchTailS s cs = some rem →
      ∃ gap : List Char, cs = gap ++ s ++ rem ∧ ∀ c ∈ gap, c ≠ '\n' := by
  intro cs
  induction cs with
  | nil =>
    intro rem h
    unfold matchTailS at h
    by_cases hs : s = []
    · rw [if_pos hs] at h
      simp only [Option.some.injEq] at h
      exact ⟨[], by simp [hs, ← h], by simp⟩
    · rw [if_neg hs] at h
      simp at h
  | cons c cs' ih =>
    intro rem h
    unfold matchTailS at h
    by_cases hst : startsWithL s (c :: cs') = true
    · rw [if_pos hst] at h
      simp only [Option.some.injEq] at h
      refine ⟨[], ?_, by simp⟩
      simp only [List.nil_append]
      rw [← h]
      exact startsWithL_eq_append s _ hst
    · rw [if_neg hst] at h
      by_cases hn : c = '\n'
      · rw [if_pos hn] at h
        simp at h
      · rw [if_neg hn] at h
        obtain ⟨gap, hg, hnl⟩ := ih rem h
        refine ⟨c :: gap, by simp [hg], ?_⟩
        intro x hx
        rcases List.mem_cons.mp hx with rfl | hx'
        · exact hn
        · exact hnl x hx'

/-- C4 (amended: the pattern is matched non-greedily across the whole file
    content with `.` matching any character except a newline — the source
    compiles the pattern without `re.DOTALL` — so the span between the
    closing quote and the suffix never contains a newline; a quoted name
    separated from the suffix only by a newline is therefore not extracted,
    while any newline-free separation still is). -/
theorem C4_no_dotall :
    (∀ (s cs rem : List Char), matchTailS s cs = some rem →
      ∃ gap : List Char, cs = gap ++ s ++ rem ∧ ∀ c ∈ gap, c ≠ '\n') ∧
    params_extract "obs[" "]" exSameLine = ["foo"] := by
  exact ⟨fun s cs rem h => matchTailS_gap s cs rem h, by decide⟩

/-- C4 witness: the gap characterisation applied at the concrete suffix `]`
    and input `" x]r"`. -/
theorem C4_no_dotall_witness :
    ∃ gap : List Char, (" x]r".toList) = gap ++ "]".toList ++ "r".toList ∧
      ∀ c ∈ gap, c ≠ '\n' :=
  C4_no_dotall.1 "]".toList " x]r".toList "r".toList (by decide)

/-- C9 (confirmed): the opening and closing quote of a reference are matched
    by independent character classes, so the mismatched-quote content
    `obs["foo']` still yields `foo`, exactly as the matched-quote content
    `obs["foo"]` does. -/
theorem C9_mismatched_quotes :
    params_extract "obs[" "]" exMismatch = ["foo"] ∧
    params_extract "obs[" "]" exMismatch = params_extract "obs[" "]" exMatched := by
  decide

/-- Draining a worklist without `include` elements records every element, in
    order, whenever the fuel covers the worklist length. -/
theorem runLaunch_no_include (env : String → Option XElem) (user repo : String) :
    ∀ (ws nodes : List XElem) (fuel : Nat),
      (∀ c ∈ ws, c.tag ≠ "include") → ws.length ≤ fuel →
      runLaunch env user repo fuel ws nodes = some (nodes ++ ws) := by
  intro ws
  induction ws with
  | nil => intro nodes fuel _ _; cases fuel <;> simp [runLaunch]
  | cons c rest ih =>
    intro nodes fuel hni hlen
    cases fuel with
    | zero =>
      simp only [List.length_cons] at hlen
      omega
    | succ n =>
      have hc : c.tag ≠ "include" := hni c (List.mem_cons_self _ _)
      have hlen' : rest.length ≤ n := by
        simp only [List.length_cons] at hlen
        omega
      unfold runLaunch
      rw [if_neg hc, ih (nodes ++ [c]) n (fun x hx => hni x (List.mem_cons_of_mem _ hx)) hlen']
      simp

/-- C6 (confirmed): `list_from_launch` returns `[]` for any path not ending
    in `.launch`, for every environment (so no fetch can influence the
    result); a fetched launch document none of whose children is an
    `include` yields exactly one descriptor per direct child (type attribute
    plus ordered remap pairs), given fuel covering the child count; and a
    launch document whose only child is a single `include` yields exactly
    the flattened result of the included file, fetched at the path formed by
    stripping the segment before the first `/` of the `file` attribute and
    prepending the same owner and repository. -/
theorem C6_list_from_launch :
    (∀ (env : String → Option XElem) (fuel : Nat) (path : String),
      strTakeRight path 7 ≠ ".launch" → list_from_launch env fuel path = some []) ∧
    (∀ (env : String → Option XElem) (fuel : Nat) (path : String) (root : XElem)
        (u r fp : List Char),
      strTakeRight path 7 = ".launch" →
      env path = some root →
      pySplit2 '/' path.toList = [u, r, fp] →
      (∀ c ∈ root.children, c.tag ≠ "include") →
      root.children.length ≤ fuel →
      list_from_launch env fuel path = some (root.children.map nodeDesc)) ∧
    (∀ (env : String → Option XElem) (fuel : Nat) (path : String) (root : XElem)
        (u r fp : List Char) (inc : XElem) (f : String) (seg rest : List Char) (iroot : XElem),
      strTakeRight path 7 = ".launch" →
      env path = some root →
      pySplit2 '/' path.toList = [u, r, fp] →
      root.children = [inc] →
      inc.tag = "include" →
      inc.getAttr "file" = some f →
      splitFirstChar '/' f.toList = some (seg, rest) →
      strTakeRight (String.mk u ++ "/" ++ String.mk r ++ "/" ++ String.mk rest) 7 = ".launch" →
      env (String.mk u ++ "/" ++ String.mk r ++ "/" ++ String.mk rest) = some iroot →
      pySplit2 '/' (String.mk u ++ "/" ++ String.mk r ++ "/" ++ String.mk rest).toList =
        [u, r, rest] →
      list_from_launch env (fuel + 1) path =
        list_from_launch env fuel
          (String.mk u ++ "/" ++ String.mk r ++ "/" ++ String.mk rest)) := by
  refine ⟨?_, ?_, ?_⟩
  · intro env fuel path h
    unfold list_from_launch
    rw [if_pos h]
  · intro env fuel path root u r fp h1 h2 h3 hni hfuel
    unfold list_from_launch
    rw [if_neg (by simp [h1]), h2]
    dsimp only
    rw [h3]
    dsimp only
    rw [runLaunch_no_include env (String.mk u) (String.mk r) root.children [] fuel hni hfuel]
    simp
  · intro env fuel path root u r fp inc f seg rest iroot h1 h2 h3 h4 h5 h6 h7 h9 h10 h11
    unfold list_from_launch
    rw [if_neg (by simp [h1]), if_neg (by simp [h9]), h2, h10]
    dsimp only
    rw [h3, h11]
    dsimp only
    rw [h4]
    conv_lhs => unfold runLaunch
    rw [if_pos h5, h6]
    dsimp only
    rw [h7]
    dsimp only
    rw [h10]
    dsimp only
    rw [List.nil_append]

/-- C6 witness: in the fixture environment, a non-launch path yields `[]`,
    the include-free `b.launch` yields its single node's descriptor, and the
    include-only `a.launch` yields exactly what `b.launch` yields. -/
theorem C6_list_from_launch_witness :
    list_from_launch wEnv 5 "u/r/readme.md" = some [] ∧
    list_from_launch wEnv 1 "u/r/b.launch" = some (wRootB.children.map nodeDesc) ∧
    list_from_launch wEnv 2 "u/r/a.launch" = list_from_launch wEnv 1 "u/r/b.launch" :=
  ⟨C6_list_from_launch.1 wEnv 5 "u/r/readme.md" (by decide),
   C6_list_from_launch.2.1 wEnv 1 "u/r/b.launch" wRootB
     "u".toList "r".toList "b.launch".toList (by decide) rfl (by decide) (by decide) (by decide),
   C6_list_from_launch.2.2 wEnv 1 "u/r/a.launch" wRootA
     "u".toList "r".toList "a.launch".toList wInc "$(find pkg)/b.launch"
     "$(find pkg)".toList "b.launch".toList wRootB
     (by decide) rfl (by decide) rfl rfl rfl (by decide) (by decide) rfl (by decide)⟩
